import Mathlib

/-!
Verification of the image-to-ASCII rendering core
(`src/plugins/examples/python/image-ascii/ascii.py`).

The Python source computes grid dimensions and glyph quantization with
IEEE-754 binary64 ("double") arithmetic.  We model a double exactly as a
mantissa/exponent pair `(m, e) : ℤ × ℤ` denoting the real number
`m * 2 ^ e`, with round-to-nearest, ties-to-even.  All inputs reached by
the theorems below stay inside the normal binary64 range, so overflow and
subnormal handling are irrelevant and not modelled.  All arithmetic is on
`ℕ`/`ℤ` so every definition evaluates inside the kernel.
-/

set_option maxRecDepth 100000

namespace Uniconv

/-- The only exception kind the embedded fragments can raise:
Python's `ZeroDivisionError`, from `img.height / img.width` at line 72. -/
inductive PyError where
  | zeroDivisionError
deriving DecidableEq

/-- Fuel-driven binary logarithm: `log2fuel fuel n = ⌊log₂ n⌋` whenever
`n ≤ fuel` and `0 < n`.  Structural recursion on the fuel keeps it
kernel-reducible. -/
def log2fuel : ℕ → ℕ → ℕ
  | 0, _ => 0
  | fuel + 1, n => if n < 2 then 0 else log2fuel fuel (n / 2) + 1

/-- `⌊log₂ n⌋` for `n ≥ 1` (0 at 0). -/
def nlog2 (n : ℕ) : ℕ := log2fuel n n

/-- `⌊log₂ (a/b)⌋` for `a, b ≥ 1`: the estimate `log₂ a - log₂ b` is off by
at most one, fixed by one comparison. -/
def ratFloorLog2 (a b : ℕ) : ℤ :=
  let k := nlog2 a
  let l := nlog2 b
  if (if l ≤ k then b * 2 ^ (k - l) ≤ a else b ≤ a * 2 ^ (l - k)) then (k : ℤ) - l
  else (k : ℤ) - l - 1

/-- Round the positive rational `a/b` (`a, b ≥ 1`) to binary64 with
round-to-nearest, ties-to-even.  Returns `(m, e)` with value `m * 2 ^ e`
and `2 ^ 52 ≤ m < 2 ^ 53`. -/
def roundPosRat (a b : ℕ) : ℤ × ℤ :=
  let e := ratFloorLog2 a b
  let s : ℤ := 52 - e
  let N := if 0 ≤ s then a * 2 ^ s.toNat else a
  let D := if 0 ≤ s then b else b * 2 ^ (-s).toNat
  let f := N / D
  let r := N % D
  let m := if 2 * r < D then f else if D < 2 * r then f + 1 else if f % 2 = 0 then f else f + 1
  if m = 2 ^ 53 then ((2 ^ 52 : ℕ), e - 51) else ((m : ℤ), e - 52)

/-- Round the rational `num/den` (`den ≥ 1`) to binary64. -/
def fpRound (num : ℤ) (den : ℕ) : ℤ × ℤ :=
  if num = 0 then (0, 0)
  else if 0 < num then roundPosRat num.toNat den
  else
    let p := roundPosRat (-num).toNat den
    (-p.1, p.2)

/-- Python `float(n)`: exact for `|n| < 2 ^ 53`, correctly rounded beyond. -/
def pyFloat (n : ℤ) : ℤ × ℤ := fpRound n 1

/-- Python `a / b` on integers (true division): the exact quotient,
correctly rounded to binary64.  Callers guard `b ≠ 0`. -/
def pyDivII (a b : ℤ) : ℤ × ℤ :=
  if 0 ≤ b then fpRound a b.toNat else fpRound (-a) (-b).toNat

/-- Python `x * y` on floats: exact product, rounded once. -/
def pyMulF (x y : ℤ × ℤ) : ℤ × ℤ :=
  let p := fpRound (x.1 * y.1) 1
  (p.1, p.2 + x.2 + y.2)

/-- The float literal `0.5` of line 73 (exactly representable). -/
def fpHalf : ℤ × ℤ := ((2 ^ 52 : ℕ), -53)

/-- Python `int(x)` on a float: truncation toward zero. -/
def fpTrunc (x : ℤ × ℤ) : ℤ :=
  if 0 ≤ x.2 then x.1 * ((2 ^ x.2.toNat : ℕ) : ℤ)
  else if 0 ≤ x.1 then ((x.1.toNat / 2 ^ (-x.2).toNat : ℕ) : ℤ)
  else -((((-x.1).toNat / 2 ^ (-x.2).toNat : ℕ) : ℤ))

/-- The `CHARSETS` table, ascii.py lines 24-33.  Strings are embedded as
`List Char` since the renderer manipulates them character-wise; brace and
apostrophe characters are written with `\x..` escapes. -/
def CHARSETS : List (String × List Char) :=
  [("standard", (" .:-=+*#%@").toList),
   ("simple", (" .:*#").toList),
   ("blocks", (" ░▒▓█").toList),
   ("detailed", (" .\x27`^\",:;Il!i><~+_-?][\x7d\x7b1)(|/tfjrxnuvczXYUJCLQ0OZmwqpdbkhao*#MW&8%B@$").toList)]

/-- Python `dict.get(key, default)` over the association-list embedding of
the `CHARSETS` dict. -/
def dictGet (d : List (String × List Char)) (key : String) (dflt : List Char) : List Char :=
  ((d.find? (fun p => p.1 == key)).map Prod.snd).getD dflt

/-- Line 66: `chars = CHARSETS.get(charset, CHARSETS['standard'])`. -/
def resolveRamp (name : String) : List Char :=
  dictGet CHARSETS name (dictGet CHARSETS ("standard") [])

/-- Lines 70-76: `aspect_ratio = img.height / img.width` (raising
`ZeroDivisionError` when the width is 0) and
`height = int(width * aspect_ratio * 0.5)`; the resize target is
`(width, height)`.  Named after the spec's Grid Sampler contract. -/
def computeGridSize (imgW imgH : ℕ) (width : ℤ) : Except PyError (ℤ × ℤ) :=
  if imgW = 0 then .error .zeroDivisionError
  else .ok (width, fpTrunc (pyMulF (pyMulF (pyFloat width) (pyDivII imgH imgW)) fpHalf))

/-- The grid-height formula exactly as the spec words it:
`floor(targetWidth × sourceHeight/sourceWidth × 0.5)` in exact rational
arithmetic (equal to `tw * sh / (2 * sw)` in natural division).  Stated
only for comparison with the float-based `computeGridSize`. -/
def specGridHeight (sw sh tw : ℕ) : ℕ := tw * sh / (2 * sw)

/-- Lines 107-108: `char_idx = int(gray_val / 256 * len(chars))` followed by
`char_idx = min(char_idx, len(chars) - 1)`, in binary64 arithmetic. -/
def glyphIndexF (gray : ℕ) (L : ℕ) : ℤ :=
  min (fpTrunc (pyMulF (pyDivII gray 256) (pyFloat L))) ((L : ℤ) - 1)

/-- Lines 66-68 and 107-109 combined: optional ramp reversal, then glyph
lookup at the quantized index.  The index is always in range for the
nonempty ramps of `CHARSETS`, so the `getD` default is unreachable. -/
def selectGlyph (ramp : List Char) (invert : Bool) (gray : ℕ) : Char :=
  let chars := if invert then ramp.reverse else ramp
  chars.getD (glyphIndexF gray chars.length).toNat ' '

/-- Lines 39-41: `c_idx = int(c / 255 * 5)` in binary64 arithmetic. -/
def ansiIdx (c : ℕ) : ℤ := fpTrunc (pyMulF (pyDivII c 255) (pyFloat 5))

/-- Lines 36-42: `rgb_to_ansi`. -/
def rgb_to_ansi (r g b : ℕ) : ℤ :=
  16 + 36 * ansiIdx r + 6 * ansiIdx g + ansiIdx b

/-- Lowercase hex digit, as produced by Python's `{:02x}` format for
digit values 0-15. -/
def hexChar (n : ℕ) : Char :=
  if n < 10 then Char.ofNat (48 + n) else Char.ofNat (87 + n)

/-- Two lowercase zero-padded hex digits of a byte (`{:02x}` for values
below 256, the range guaranteed by the pixel-buffer contract). -/
def hex2 (n : ℕ) : List Char := [hexChar (n / 16), hexChar (n % 16)]

/-- Lines 45-47: `rgb_to_html_color`, the string `#rrggbb`. -/
def rgb_to_html_color (r g b : ℕ) : List Char :=
  '#' :: (hex2 r ++ hex2 g ++ hex2 b)

/-- Fuel-driven decimal digits of a natural number. -/
def decDigits : ℕ → ℕ → List Char
  | 0, _ => []
  | fuel + 1, n =>
    if n < 10 then [Char.ofNat (48 + n)]
    else decDigits fuel (n / 10) ++ [Char.ofNat (48 + n % 10)]

/-- Decimal rendering of an integer, as Python's f-string interpolation
prints an `int`. -/
def intDec (i : ℤ) : List Char :=
  if i < 0 then '-' :: decDigits (-i).toNat.succ (-i).toNat
  else decDigits i.toNat.succ i.toNat

/-- Lines 101-118, one cell: glyph selection plus the html / ANSI / plain
wrapper.  `getD` defaults are unreachable under the buffer-size and
nonempty-ramp contracts. -/
def renderCell (p : ℕ × ℕ × ℕ) (gray : ℕ) (chars : List Char) (color html : Bool) : List Char :=
  let ch := chars.getD (glyphIndexF gray chars.length).toNat ' '
  if html then
    ("<span style=\"color:").toList ++ rgb_to_html_color p.1 p.2.1 p.2.2 ++
      ("\">").toList ++ [ch] ++ ("</span>").toList
  else if color then
    ("\x1b[38;5;").toList ++ intDec (rgb_to_ansi p.1 p.2.1 p.2.2) ++
      ['m', ch] ++ ("\x1b[0m").toList
  else [ch]

/-- Lines 99-120, one row: cells at indices `y*width + x` for
`x = 0 .. width-1`, concatenated. -/
def renderRow (pixels : List (ℕ × ℕ × ℕ)) (grays : List ℕ) (width y : ℕ)
    (chars : List Char) (color html : Bool) : List Char :=
  ((List.range width).map (fun x =>
    renderCell (pixels.getD (y * width + x) (0, 0, 0))
      (grays.getD (y * width + x) 0) chars color html)).flatten

/-- Lines 90-97: the fixed HTML preamble lines. -/
def htmlHeader : List (List Char) :=
  [("<!DOCTYPE html>").toList,
   ("<html><head>").toList,
   ("<style>").toList,
   ("body \x7b background: #000; \x7d").toList,
   ("pre \x7b font-family: monospace; font-size: 10px; line-height: 1; \x7d").toList,
   ("</style>").toList,
   ("</head><body><pre>").toList]

/-- Line 123: the fixed HTML closing line. -/
def htmlFooter : List Char := ("</pre></body></html>").toList

/-- Python `sep.join(strings)`. -/
def joinSep (sep : List Char) : List (List Char) → List Char
  | [] => []
  | [l] => l
  | l :: ls => l ++ sep ++ joinSep sep ls

/-- Lines 88-125: header (html mode), rows, footer (html mode), joined
with a newline. -/
def renderLines (pixels : List (ℕ × ℕ × ℕ)) (grays : List ℕ) (width height : ℕ)
    (chars : List Char) (color html : Bool) : List Char :=
  joinSep ['\n']
    ((if html then htmlHeader else []) ++
      (List.range height).map (fun y => renderRow pixels grays width y chars color html) ++
      (if html then [htmlFooter] else []))

/-- The external image collaborator: source dimensions plus the
resize/convert/getdata chain, which for requested dimensions returns the
row-major RGB pixels and the aligned grayscale intensities. -/
structure SourceImage where
  width : ℕ
  height : ℕ
  resample : ℤ → ℤ → List (ℕ × ℕ × ℕ) × List ℕ

/-- Lines 50-125: `image_to_ascii`. -/
def image_to_ascii (img : SourceImage) (width : ℤ) (charset : String)
    (invert color html : Bool) : Except PyError String :=
  let chars0 := resolveRamp charset
  let chars := if invert then chars0.reverse else chars0
  match computeGridSize img.width img.height width with
  | .error e => .error e
  | .ok wh =>
    let pg := img.resample wh.1 wh.2
    .ok ⟨renderLines pg.1 pg.2 wh.1.toNat wh.2.toNat chars color html⟩

/-- Number of occurrences of the 5-character pattern `<span` in a
character list (counting every start position). -/
def cnt : List Char → ℕ
  | [] => 0
  | c :: l => cnt l + (if c = '<' ∧ l.take 4 = ['s', 'p', 'a', 'n'] then 1 else 0)

end Uniconv

namespace Uniconv

/-- C1: the claim says an unrecognized charset name makes the render path
fail with `UnknownCharsetError`.  The code instead resolves the name
`"bogus"` — not in the recognized set — successfully, to the standard
ramp: line 66 is `CHARSETS.get(charset, CHARSETS['standard'])`, a silent
fallback. -/
theorem C1_counterexample :
    resolveRamp ("bogus") = (" .:-=+*#%@").toList ∧
      ("bogus" : String) ∉ (["standard", "simple", "blocks", "detailed"] : List String) := by
  constructor
  · rfl
  · decide

/-- C1 amended: for every charset name outside the recognized set, the
core silently falls back to the standard ramp; no error is raised (the
CLI layer's argparse `choices` rejects unknown names before the core). -/
theorem C1_fallback (name : String)
    (h : name ∉ (["standard", "simple", "blocks", "detailed"] : List String)) :
    resolveRamp name = (" .:-=+*#%@").toList := by
  simp only [List.mem_cons, List.not_mem_nil, or_false, not_or] at h
  obtain ⟨h1, h2, h3, h4⟩ := h
  have e1 : (("standard" : String) == name) = false := by
    simp [beq_eq_false_iff_ne]; exact fun hc => h1 hc.symm
  have e2 : (("simple" : String) == name) = false := by
    simp [beq_eq_false_iff_ne]; exact fun hc => h2 hc.symm
  have e3 : (("blocks" : String) == name) = false := by
    simp [beq_eq_false_iff_ne]; exact fun hc => h3 hc.symm
  have e4 : (("detailed" : String) == name) = false := by
    simp [beq_eq_false_iff_ne]; exact fun hc => h4 hc.symm
  simp [resolveRamp, dictGet, CHARSETS, List.find?, e1, e2, e3, e4]

/-- C1 witness: the unknown name `"bogus"` resolves to the standard
ramp. -/
theorem C1_fallback_witness :
    resolveRamp ("bogus") = (" .:-=+*#%@").toList :=
  C1_fallback ("bogus") (by decide)

end Uniconv

namespace Uniconv

/-- C3: the claim says `targetWidth ≤ 0` or a zero source dimension makes
the grid-size computation fail with `InvalidDimensionError`.  The code
has no such error: source height 0 and target width 0 both proceed and
produce a degenerate grid, and source width 0 raises `ZeroDivisionError`
instead. -/
theorem C3_counterexample :
    computeGridSize 2 0 4 = .ok (4, 0) ∧
      computeGridSize 2 2 0 = .ok (0, 0) ∧
      computeGridSize 0 2 4 = .error .zeroDivisionError := by
  refine ⟨rfl, rfl, rfl⟩

/-- C3 amended: the computation validates nothing.  Source width 0 raises
`ZeroDivisionError`; any other input succeeds; source height 0 or
`targetWidth ≤ 0` yield a degenerate grid such as `(4, 0)`, `(0, 0)` or
`(-3, -1)` rather than an error. -/
theorem C3_no_validation :
    (∀ sh : ℕ, ∀ tw : ℤ, computeGridSize 0 sh tw = .error .zeroDivisionError) ∧
      (∀ sw sh : ℕ, ∀ tw : ℤ, sw ≠ 0 → ∃ gh : ℤ, computeGridSize sw sh tw = .ok (tw, gh)) ∧
      computeGridSize 2 0 4 = .ok (4, 0) ∧
      computeGridSize 2 2 (-3) = .ok (-3, -1) := by
  refine ⟨fun sh tw => rfl, fun sw sh tw hsw =>
    ⟨fpTrunc (pyMulF (pyMulF (pyFloat tw) (pyDivII sh sw)) fpHalf), ?_⟩, rfl, rfl⟩
  simp [computeGridSize, hsw]

/-- C3 witness: concrete instances of both quantified parts. -/
theorem C3_no_validation_witness :
    computeGridSize 0 7 9 = .error .zeroDivisionError ∧
      ∃ gh : ℤ, computeGridSize 3 7 9 = .ok (9, gh) :=
  ⟨C3_no_validation.1 7 9, C3_no_validation.2.1 3 7 9 (by decide)⟩

/-- C5: the claim says the grid height is exactly
`floor(targetWidth × sourceHeight/sourceWidth × 0.5)`.  At source size
33×36 and target width 55 the exact formula gives 30, but the code's
binary64 evaluation `int(55 * (36/33) * 0.5)` gives 29: `36/33` rounds
down, `55 * that` rounds down across the integer 60 to
`60 - 2⁻⁴⁷`, and halving and truncating yields 29. -/
theorem C5_counterexample :
    computeGridSize 33 36 55 = .ok (55, 29) ∧ specGridHeight 33 36 55 = 30 ∧
      (29 : ℤ) ≠ 30 := by
  refine ⟨rfl, rfl, by decide⟩

/-- C5 amended: the grid width always equals the target width and the
height is the truncation of the binary64 product
`float(targetWidth) * (sourceHeight/sourceWidth) * 0.5`, which can fall
below the exact floor formula; there is no minimum clamp, so the height
can be 0 (e.g. source 100×1 at target width 8), while ordinary inputs
match the formula (e.g. source 2×2 at target width 3 gives height 1). -/
theorem C5_grid :
    (∀ sw sh : ℕ, ∀ tw : ℤ, sw ≠ 0 →
      computeGridSize sw sh tw =
        .ok (tw, fpTrunc (pyMulF (pyMulF (pyFloat tw) (pyDivII sh sw)) fpHalf))) ∧
      computeGridSize 100 1 8 = .ok (8, 0) ∧
      computeGridSize 2 2 3 = .ok (3, 1) := by
  refine ⟨fun sw sh tw hsw => ?_, rfl, rfl⟩
  simp [computeGridSize, hsw]

/-- C5 witness: a concrete instance of the quantified part. -/
theorem C5_grid_witness :
    computeGridSize 33 36 55 =
      .ok (55, fpTrunc (pyMulF (pyMulF (pyFloat 55) (pyDivII 36 33)) fpHalf)) :=
  C5_grid.1 33 36 55 (by decide)

/-- The binary64 evaluation of `int(c / 255 * 5)` agrees with the exact
`⌊c·5/255⌋` on every byte (checked exhaustively). -/
theorem ansiIdx_eq_exact : ∀ c : ℕ, c < 256 → ansiIdx c = ((c * 5 / 255 : ℕ) : ℤ) := by
  decide

/-- C6: the Ansi256 encoding is `16 + 36·r6 + 6·g6 + b6` with
`c6 = ⌊c/255·5⌋`, always lands in 16..231, and maps black to 16 and
white to 231. -/
theorem C6_ansi :
    (∀ r g b : ℕ, r < 256 → g < 256 → b < 256 →
      rgb_to_ansi r g b =
          16 + 36 * ((r * 5 / 255 : ℕ) : ℤ) + 6 * ((g * 5 / 255 : ℕ) : ℤ) +
            ((b * 5 / 255 : ℕ) : ℤ) ∧
        16 ≤ rgb_to_ansi r g b ∧ rgb_to_ansi r g b ≤ 231) ∧
      rgb_to_ansi 0 0 0 = 16 ∧ rgb_to_ansi 255 255 255 = 231 := by
  have hb : ∀ c : ℕ, c < 256 → c * 5 / 255 ≤ 5 := by decide
  refine ⟨fun r g b hr hg hb' => ?_, rfl, rfl⟩
  have er := ansiIdx_eq_exact r hr
  have eg := ansiIdx_eq_exact g hg
  have eb := ansiIdx_eq_exact b hb'
  have br := hb r hr
  have bg := hb g hg
  have bb := hb b hb'
  refine ⟨?_, ?_, ?_⟩
  · simp [rgb_to_ansi, er, eg, eb]
  · simp only [rgb_to_ansi, er, eg, eb]
    omega
  · simp only [rgb_to_ansi, er, eg, eb]
    omega

/-- C6 witness: a concrete instance of the quantified part. -/
theorem C6_ansi_witness :
    rgb_to_ansi 12 200 255 =
        16 + 36 * ((12 * 5 / 255 : ℕ) : ℤ) + 6 * ((200 * 5 / 255 : ℕ) : ℤ) +
          ((255 * 5 / 255 : ℕ) : ℤ) ∧
      16 ≤ rgb_to_ansi 12 200 255 ∧ rgb_to_ansi 12 200 255 ≤ 231 :=
  C6_ansi.1 12 200 255 (by decide) (by decide) (by decide)

/-- A concrete image used to instantiate witnesses. -/
def testImage : SourceImage :=
  ⟨2, 2, fun _ _ => ([(0, 0, 0), (255, 255, 255)], [0, 255])⟩

/-- C9: rendering is deterministic — the embedded `image_to_ascii` is a
pure function of the pixel data (through the collaborator), the source
dimensions and the render configuration, so two runs on equal inputs
produce equal output bytes. -/
theorem C9_deterministic (img₁ img₂ : SourceImage) (width₁ width₂ : ℤ)
    (cs₁ cs₂ : String) (inv₁ inv₂ col₁ col₂ htm₁ htm₂ : Bool)
    (himg : img₁ = img₂) (hw : width₁ = width₂) (hcs : cs₁ = cs₂)
    (hinv : inv₁ = inv₂) (hcol : col₁ = col₂) (hhtm : htm₁ = htm₂) :
    image_to_ascii img₁ width₁ cs₁ inv₁ col₁ htm₁ =
      image_to_ascii img₂ width₂ cs₂ inv₂ col₂ htm₂ := by
  rw [himg, hw, hcs, hinv, hcol, hhtm]

/-- C9 witness: two runs on the concrete test image coincide. -/
theorem C9_deterministic_witness :
    image_to_ascii testImage 2 ("simple") false false false =
      image_to_ascii testImage 2 ("simple") false false false :=
  C9_deterministic testImage testImage 2 2 ("simple") ("simple") false false
    false false false false rfl rfl rfl rfl rfl rfl

end Uniconv

namespace Uniconv

/-- Specification of the fuel-driven logarithm. -/
theorem log2fuel_spec : ∀ fuel n : ℕ, 0 < n → n ≤ fuel →
    2 ^ log2fuel fuel n ≤ n ∧ n < 2 ^ (log2fuel fuel n + 1) := by
  intro fuel
  induction fuel with
  | zero => intro n h1 h2; omega
  | succ f ih =>
    intro n h1 h2
    rw [log2fuel]
    by_cases h : n < 2
    · simp only [if_pos h]
      constructor
      · simpa using h1
      · simpa using h
    · simp only [if_neg h]
      have hrec := ih (n / 2) (by omega) (by omega)
      constructor
      · calc 2 ^ (log2fuel f (n / 2) + 1) = 2 * 2 ^ log2fuel f (n / 2) := by ring
          _ ≤ 2 * (n / 2) := by omega
          _ ≤ n := by omega
      · calc n < 2 * (n / 2) + 2 := by omega
          _ ≤ 2 * 2 ^ (log2fuel f (n / 2) + 1) := by omega
          _ = 2 ^ (log2fuel f (n / 2) + 1 + 1) := by ring

/-- `nlog2` is the floor of the binary logarithm. -/
theorem nlog2_spec (n : ℕ) (h : 0 < n) :
    2 ^ nlog2 n ≤ n ∧ n < 2 ^ (nlog2 n + 1) :=
  log2fuel_spec n n h le_rfl

/-- The floor of the binary logarithm is unique. -/
theorem nlog2_unique (n u : ℕ) (h1 : 2 ^ u ≤ n) (h2 : n < 2 ^ (u + 1)) :
    nlog2 n = u := by
  have h0 : 0 < n := lt_of_lt_of_le (by positivity) h1
  obtain ⟨a, b⟩ := nlog2_spec n h0
  by_contra hne
  rcases Nat.lt_or_ge (nlog2 n) u with hlt | hge
  · have : 2 ^ (nlog2 n + 1) ≤ 2 ^ u := Nat.pow_le_pow_right (by norm_num) (by omega)
    omega
  · have hgt : u < nlog2 n := by omega
    have : 2 ^ (u + 1) ≤ 2 ^ nlog2 n := Nat.pow_le_pow_right (by norm_num) (by omega)
    omega

/-- Scaling by a power of two shifts the logarithm. -/
theorem nlog2_mul_pow2 (v t : ℕ) (hv : 0 < v) :
    nlog2 (v * 2 ^ t) = nlog2 v + t := by
  obtain ⟨a, b⟩ := nlog2_spec v hv
  apply nlog2_unique
  · rw [pow_add]
    exact Nat.mul_le_mul_right _ a
  · calc v * 2 ^ t < 2 ^ (nlog2 v + 1) * 2 ^ t :=
        mul_lt_mul_of_pos_right b (by positivity)
      _ = 2 ^ (nlog2 v + t + 1) := by rw [← pow_add]; congr 1; omega

/-- Logarithm of a power of two. -/
theorem nlog2_pow2 (j : ℕ) : nlog2 (2 ^ j) = j :=
  nlog2_unique _ j le_rfl (Nat.pow_lt_pow_succ (by norm_num))

/-- `ratFloorLog2` on the dyadic ratio `v·2ᵗ / 2ʲ`. -/
theorem ratFloorLog2_dyadic (v t j : ℕ) (h1 : 0 < v) :
    ratFloorLog2 (v * 2 ^ t) (2 ^ j) = (nlog2 v : ℤ) + t - j := by
  have hspec := nlog2_spec v h1
  unfold ratFloorLog2
  rw [nlog2_mul_pow2 v t h1, nlog2_pow2]
  have hcond : if j ≤ nlog2 v + t then 2 ^ j * 2 ^ (nlog2 v + t - j) ≤ v * 2 ^ t
      else 2 ^ j ≤ v * 2 ^ t * 2 ^ (j - (nlog2 v + t)) := by
    by_cases hj : j ≤ nlog2 v + t
    · rw [if_pos hj]
      calc 2 ^ j * 2 ^ (nlog2 v + t - j) = 2 ^ (nlog2 v + t) := by
            rw [← pow_add]; congr 1; omega
        _ = 2 ^ nlog2 v * 2 ^ t := by rw [← pow_add]
        _ ≤ v * 2 ^ t := Nat.mul_le_mul_right _ hspec.1
    · rw [if_neg hj]
      calc 2 ^ j = 2 ^ nlog2 v * 2 ^ (j - nlog2 v) := by
            rw [← pow_add]; congr 1; omega
        _ ≤ v * 2 ^ (j - nlog2 v) := Nat.mul_le_mul_right _ hspec.1
        _ = v * (2 ^ t * 2 ^ (j - (nlog2 v + t))) := by
            have ht : t + (j - (nlog2 v + t)) = j - nlog2 v := by omega
            rw [← pow_add, ht]
        _ = v * 2 ^ t * 2 ^ (j - (nlog2 v + t)) := by ring
  rw [if_pos hcond]
  push_cast
  ring

/-- Rounding is exact on dyadic rationals `v·2ᵗ / 2ʲ` whose numerator fits
in 53 bits: this is the representable-value case of binary64. -/
theorem roundPosRat_dyadic (v t j : ℕ) (h1 : 0 < v) (h2 : v < 2 ^ 53) :
    roundPosRat (v * 2 ^ t) (2 ^ j) =
      (((v * 2 ^ (52 - nlog2 v) : ℕ) : ℤ), (nlog2 v : ℤ) + t - j - 52) := by
  have hspec := nlog2_spec v h1
  have hk52 : nlog2 v ≤ 52 := by
    by_contra hgt
    have : 2 ^ 53 ≤ 2 ^ nlog2 v := Nat.pow_le_pow_right (by norm_num) (by omega)
    omega
  have hmlt : v * 2 ^ (52 - nlog2 v) < 2 ^ 53 := by
    calc v * 2 ^ (52 - nlog2 v) < 2 ^ (nlog2 v + 1) * 2 ^ (52 - nlog2 v) :=
        mul_lt_mul_of_pos_right hspec.2 (by positivity)
      _ = 2 ^ 53 := by rw [← pow_add]; congr 1; omega
  have hmne : v * 2 ^ (52 - nlog2 v) ≠ 2 ^ 53 := by omega
  simp only [roundPosRat, ratFloorLog2_dyadic v t j h1]
  by_cases hs : (0 : ℤ) ≤ 52 - ((nlog2 v : ℤ) + t - j)
  · rw [if_pos hs, if_pos hs]
    have htn : ((52 : ℤ) - ((nlog2 v : ℤ) + t - j)).toNat = 52 + j - (nlog2 v + t) := by
      omega
    rw [htn]
    have hN : v * 2 ^ t * 2 ^ (52 + j - (nlog2 v + t)) = v * 2 ^ (52 - nlog2 v) * 2 ^ j := by
      rw [mul_assoc, mul_assoc, ← pow_add, ← pow_add]
      congr 1
      congr 1
      omega
    rw [hN, Nat.mul_div_cancel _ (by positivity), Nat.mul_mod_left]
    rw [if_pos (by positivity : 2 * 0 < 2 ^ j)]
    rw [if_neg hmne]
  · rw [if_neg hs, if_neg hs]
    have htn : (-((52 : ℤ) - ((nlog2 v : ℤ) + t - j))).toNat = nlog2 v + t - (52 + j) := by
      omega
    rw [htn]
    have hD : 2 ^ j * 2 ^ (nlog2 v + t - (52 + j)) = 2 ^ (nlog2 v + t - 52) := by
      rw [← pow_add]; congr 1; omega
    have hN : v * 2 ^ t = v * 2 ^ (52 - nlog2 v) * 2 ^ (nlog2 v + t - 52) := by
      rw [mul_assoc, ← pow_add]
      congr 1
      congr 1
      omega
    rw [hD, hN, Nat.mul_div_cancel _ (by positivity), Nat.mul_mod_left]
    rw [if_pos (by positivity : 2 * 0 < 2 ^ (nlog2 v + t - 52))]
    rw [if_neg hmne]

/-- `fpRound` on a dyadic value with a 53-bit numerator. -/
theorem fpRound_dyadic (v t j : ℕ) (h1 : 0 < v) (h2 : v < 2 ^ 53) :
    fpRound ((v * 2 ^ t : ℕ) : ℤ) (2 ^ j) =
      (((v * 2 ^ (52 - nlog2 v) : ℕ) : ℤ), (nlog2 v : ℤ) + t - j - 52) := by
  have hne : ((v * 2 ^ t : ℕ) : ℤ) ≠ 0 := by positivity
  have hpos : (0 : ℤ) < ((v * 2 ^ t : ℕ) : ℤ) := by positivity
  unfold fpRound
  rw [if_neg hne, if_pos hpos, Int.toNat_natCast]
  exact roundPosRat_dyadic v t j h1 h2

end Uniconv

namespace Uniconv

/-- `gray / 256` in Python: exact, with mantissa `gray·2^(52-⌊log₂ gray⌋)`. -/
theorem pyDivII_byte (gray : ℕ) (h1 : 0 < gray) (h53 : gray < 2 ^ 53) :
    pyDivII gray 256 =
      (((gray * 2 ^ (52 - nlog2 gray) : ℕ) : ℤ), (nlog2 gray : ℤ) - 60) := by
  unfold pyDivII
  rw [if_pos (by norm_num : (0 : ℤ) ≤ 256)]
  have e1 : ((256 : ℤ)).toNat = 2 ^ 8 := by decide
  have e2 : (gray : ℤ) = ((gray * 2 ^ 0 : ℕ) : ℤ) := by norm_num
  rw [e1, e2, fpRound_dyadic gray 0 8 h1 h53]
  have e3 : (nlog2 gray : ℤ) + (0 : ℕ) - (8 : ℕ) - 52 = (nlog2 gray : ℤ) - 60 := by
    push_cast; ring
  rw [e3]

/-- `float(n)` for `0 < n < 2^53` is exact. -/
theorem pyFloat_small (n : ℕ) (h1 : 0 < n) (h2 : n < 2 ^ 53) :
    pyFloat n = (((n * 2 ^ (52 - nlog2 n) : ℕ) : ℤ), (nlog2 n : ℤ) - 52) := by
  unfold pyFloat
  have e1 : (1 : ℕ) = 2 ^ 0 := by norm_num
  have e2 : (n : ℤ) = ((n * 2 ^ 0 : ℕ) : ℤ) := by norm_num
  rw [e1, e2, fpRound_dyadic n 0 0 h1 h2]
  have e3 : (nlog2 n : ℤ) + (0 : ℕ) - (0 : ℕ) - 52 = (nlog2 n : ℤ) - 52 := by
    push_cast; ring
  rw [e3]

/-- Bound on `nlog2` from a power-of-two bound. -/
theorem nlog2_lt_of_lt_pow (n p : ℕ) (h1 : 0 < n) (h2 : n < 2 ^ p) :
    nlog2 n < p := by
  obtain ⟨a, _⟩ := nlog2_spec n h1
  by_contra hge
  have : 2 ^ p ≤ 2 ^ nlog2 n := Nat.pow_le_pow_right (by norm_num) (by omega)
  omega

/-- The binary64 evaluation of `int(gray / 256 * L)` of lines 107-108 is
exact: `gray/256` is an exact dyadic and the product's numerator
`gray·L` fits in 53 bits, so the quantizer equals
`min(⌊gray·L/256⌋, L-1)`. -/
theorem glyphIndexF_eq (gray L : ℕ) (hg : gray < 256) (hL1 : 1 ≤ L) (hL : L ≤ 256) :
    glyphIndexF gray L = min (((gray * L / 256 : ℕ) : ℤ)) ((L : ℤ) - 1) := by
  rcases Nat.eq_zero_or_pos gray with h0 | hpos
  · subst h0
    have hz : fpTrunc (pyMulF (pyDivII ((0 : ℕ) : ℤ) 256) (pyFloat L)) = 0 := by
      simp [pyDivII, fpRound, pyMulF, fpTrunc]
    unfold glyphIndexF
    rw [hz]
    norm_num
  · have hL0 : 0 < L := hL1
    have hgl : gray * L ≤ 255 * 256 := Nat.mul_le_mul (by omega) hL
    have hkg : nlog2 gray < 8 := nlog2_lt_of_lt_pow gray 8 hpos (by omega)
    have hkL : nlog2 L ≤ 8 := by
      have := nlog2_lt_of_lt_pow L 9 hL0 (by omega)
      omega
    have hprod : 0 < gray * L := Nat.mul_pos hpos hL0
    have hklt : nlog2 (gray * L) < 16 := nlog2_lt_of_lt_pow _ 16 hprod (by omega)
    unfold glyphIndexF
    rw [pyDivII_byte gray hpos (by omega), pyFloat_small L hL0 (by omega)]
    unfold pyMulF
    have hAB : ((gray * 2 ^ (52 - nlog2 gray) : ℕ) : ℤ) * ((L * 2 ^ (52 - nlog2 L) : ℕ) : ℤ) =
        (((gray * L) * 2 ^ (104 - nlog2 gray - nlog2 L) : ℕ) : ℤ) := by
      push_cast
      rw [mul_mul_mul_comm, ← pow_add]
      congr 2
      omega
    rw [hAB]
    have h1 : (1 : ℕ) = 2 ^ 0 := by norm_num
    rw [h1, fpRound_dyadic (gray * L) (104 - nlog2 gray - nlog2 L) 0 hprod (by omega)]
    simp only [fpTrunc]
    have hexp : ((nlog2 (gray * L) : ℤ) + ((104 - nlog2 gray - nlog2 L : ℕ) : ℤ) - ((0 : ℕ) : ℤ) - 52) +
        ((nlog2 gray : ℤ) - 60) + ((nlog2 L : ℤ) - 52) = (nlog2 (gray * L) : ℤ) - 60 := by
      omega
    rw [hexp]
    have hneg : ¬ (0 : ℤ) ≤ (nlog2 (gray * L) : ℤ) - 60 := by omega
    rw [if_neg hneg]
    have hnn : (0 : ℤ) ≤ ((gray * L * 2 ^ (52 - nlog2 (gray * L)) : ℕ) : ℤ) := by positivity
    rw [if_pos hnn, Int.toNat_natCast]
    have htn : (-(((nlog2 (gray * L) : ℤ)) - 60)).toNat = 60 - nlog2 (gray * L) := by omega
    rw [htn]
    have hdivv : gray * L * 2 ^ (52 - nlog2 (gray * L)) / 2 ^ (60 - nlog2 (gray * L)) =
        gray * L / 256 := by
      have hsplit : 2 ^ (60 - nlog2 (gray * L)) = 2 ^ (52 - nlog2 (gray * L)) * 2 ^ 8 := by
        rw [← pow_add]; congr 1; omega
      rw [hsplit]
      rw [mul_comm (gray * L) (2 ^ (52 - nlog2 (gray * L)))]
      rw [Nat.mul_div_mul_left _ _ (by positivity)]
      norm_num
    rw [hdivv]

end Uniconv

namespace Uniconv

/-- C4: the claim quantifies over every ramp length `L ≥ 2`, but its
consequence `glyphIndex(255, L) = L - 1` fails beyond `L = 256`: at
`L = 257` the code's `min(int(255/256*257), 256)` is 255, not 256. -/
theorem C4_counterexample :
    glyphIndexF 255 257 = 255 ∧ (255 : ℤ) ≠ (257 : ℤ) - 1 := by
  constructor
  · decide
  · decide

/-- C4 amended: for every intensity `i` in 0..255 and ramp length
`2 ≤ L ≤ 256` (which covers all recognized ramps), the quantizer equals
`min(⌊i/256·L⌋, L-1)`, lands in `[0, L-1]`, and maps 0 to 0 and 255 to
`L-1`. -/
theorem C4_quantizer (i L : ℕ) (hi : i < 256) (hL2 : 2 ≤ L) (hL : L ≤ 256) :
    glyphIndexF i L = min (((i * L / 256 : ℕ) : ℤ)) ((L : ℤ) - 1) ∧
      0 ≤ glyphIndexF i L ∧ glyphIndexF i L ≤ (L : ℤ) - 1 ∧
      glyphIndexF 0 L = 0 ∧ glyphIndexF 255 L = (L : ℤ) - 1 := by
  have hmain := glyphIndexF_eq i L hi (by omega) hL
  refine ⟨hmain, ?_, ?_, ?_, ?_⟩
  · rw [hmain]
    apply le_min
    · positivity
    · omega
  · rw [hmain]
    exact min_le_right _ _
  · rw [glyphIndexF_eq 0 L (by norm_num) (by omega) hL]
    have hz : ((0 * L / 256 : ℕ) : ℤ) = 0 := by norm_num
    rw [hz, min_eq_left (by omega)]
  · rw [glyphIndexF_eq 255 L (by norm_num) (by omega) hL]
    have h255 : 255 * L / 256 = L - 1 := by
      have hsplit : 255 * L = (256 - L) + (L - 1) * 256 := by omega
      rw [hsplit, Nat.add_mul_div_right _ _ (by norm_num : 0 < 256),
        Nat.div_eq_of_lt (by omega)]
      omega
    rw [h255]
    have hcast : ((L - 1 : ℕ) : ℤ) = (L : ℤ) - 1 := by omega
    rw [hcast, min_self]

/-- C4 witness: the amended statement at `i = 77`, `L = 10`. -/
theorem C4_quantizer_witness :
    glyphIndexF 77 10 = min (((77 * 10 / 256 : ℕ) : ℤ)) ((10 : ℤ) - 1) ∧
      0 ≤ glyphIndexF 77 10 ∧ glyphIndexF 77 10 ≤ (10 : ℤ) - 1 ∧
      glyphIndexF 0 10 = 0 ∧ glyphIndexF 255 10 = (10 : ℤ) - 1 :=
  C4_quantizer 77 10 (by decide) (by decide) (by decide)

/-- Glyph selection rewritten through the exact quantizer. -/
theorem selectGlyph_eq_nat (ramp : List Char) (invert : Bool) (gray : ℕ)
    (hg : gray < 256) (h1 : 1 ≤ ramp.length) (h256 : ramp.length ≤ 256) :
    selectGlyph ramp invert gray =
      (if invert then ramp.reverse else ramp).getD
        (min (gray * ramp.length / 256) (ramp.length - 1)) ' ' := by
  simp only [selectGlyph]
  have hlen : (if invert then ramp.reverse else ramp).length = ramp.length := by
    cases invert <;> simp
  rw [hlen, glyphIndexF_eq gray _ hg h1 h256]
  congr 1
  omega

/-- C2: the inversion law `glyph(i, ramp, invert) = glyph(255-i, ramp)`
fails on the code: quantization does not commute with the `255-i`
reflection.  At `i = 51` on the simple ramp, the inverted render picks
`#` (index 0 of the reversed ramp) while intensity 204 picks `*`
(index 3). -/
theorem C2_counterexample :
    selectGlyph ((" .:*#").toList) true 51 ≠
      selectGlyph ((" .:*#").toList) false (255 - 51) := by
  decide

/-- C2 amended: the reflection law holds exactly when the quantization
residue is small enough — for every recognized ramp and every intensity
`i < 256` with `(i·L) mod 256 + L ≤ 256` (`L` the ramp length), the
inverted glyph at `i` equals the uninverted glyph at `255-i`; the
counterexample shows it fails outside this condition. -/
theorem C2_inversion_conditional :
    ∀ ramp ∈ [(" .:-=+*#%@").toList, (" .:*#").toList, (" ░▒▓█").toList,
      (" .\x27`^\",:;Il!i><~+_-?][\x7d\x7b1)(|/tfjrxnuvczXYUJCLQ0OZmwqpdbkhao*#MW&8%B@$").toList],
      ∀ i : ℕ, i < 256 → (i * ramp.length) % 256 + ramp.length ≤ 256 →
        selectGlyph ramp true i = selectGlyph ramp false (255 - i) := by
  intro ramp hramp i hi hcond
  rw [selectGlyph_eq_nat ramp true i hi ?h1 ?h2,
    selectGlyph_eq_nat ramp false (255 - i) (by omega) ?h1 ?h2]
  case h1 => fin_cases hramp <;> decide
  case h2 => fin_cases hramp <;> decide
  fin_cases hramp
  · revert hcond
    revert hi
    revert i
    decide
  · revert hcond
    revert hi
    revert i
    decide
  · revert hcond
    revert hi
    revert i
    decide
  · revert hcond
    revert hi
    revert i
    decide

/-- C2 witness: the amended law at `i = 10` on the simple ramp. -/
theorem C2_inversion_witness :
    selectGlyph ((" .:*#").toList) true 10 =
      selectGlyph ((" .:*#").toList) false (255 - 10) :=
  C2_inversion_conditional ((" .:*#").toList) (by decide) 10 (by decide) (by decide)

end Uniconv

namespace Uniconv

/-- Inverse of `hexChar` on the hex-digit alphabet. -/
def unhex (c : Char) : ℕ := if c.toNat ≤ 57 then c.toNat - 48 else c.toNat - 87

/-- Every byte's two hex digits decode back to the byte: the `#rrggbb`
encoding is value-correct (checked exhaustively). -/
theorem hex2_decode : ∀ n : ℕ, n < 256 →
    unhex (hexChar (n / 16)) * 16 + unhex (hexChar (n % 16)) = n := by
  decide

/-- Hex digits are lowercase `0-9a-f` (checked exhaustively). -/
theorem hexChar_mem_alphabet : ∀ n : ℕ, n < 16 →
    hexChar n ∈ ("0123456789abcdef").toList := by
  decide

/-- C7: the Html color string is `#` followed by six lowercase hex digits
(7 characters, value-correct, `(255,0,0) ↦ "#ff0000"`), and in html mode
each rendered cell is exactly a `<span style="color:...">` wrapper around
its glyph carrying that color. -/
theorem C7_html_color :
    (∀ r g b : ℕ, r < 256 → g < 256 → b < 256 →
      (rgb_to_html_color r g b).length = 7 ∧
        (rgb_to_html_color r g b).head? = some '#' ∧
        (∀ c ∈ (rgb_to_html_color r g b).tail, c ∈ ("0123456789abcdef").toList) ∧
        unhex (hexChar (r / 16)) * 16 + unhex (hexChar (r % 16)) = r) ∧
      rgb_to_html_color 255 0 0 = ("#ff0000").toList ∧
      (∀ (p : ℕ × ℕ × ℕ) (gray : ℕ) (chars : List Char) (cb : Bool),
        renderCell p gray chars cb true =
          ("<span style=\"color:").toList ++ rgb_to_html_color p.1 p.2.1 p.2.2 ++
            ("\">").toList ++ [chars.getD (glyphIndexF gray chars.length).toNat ' '] ++
            ("</span>").toList) := by
  refine ⟨fun r g b hr hg hb => ⟨?_, ?_, ?_, hex2_decode r hr⟩, by decide,
    fun p gray chars cb => rfl⟩
  · simp [rgb_to_html_color, hex2]
  · rfl
  · intro c hc
    simp only [rgb_to_html_color, List.tail_cons, hex2, List.mem_append,
      List.mem_cons, List.not_mem_nil, or_false] at hc
    rcases hc with ((h | h) | (h | h)) | (h | h) <;> subst h <;>
      [exact hexChar_mem_alphabet _ (by omega); exact hexChar_mem_alphabet _ (by omega);
       exact hexChar_mem_alphabet _ (by omega); exact hexChar_mem_alphabet _ (by omega);
       exact hexChar_mem_alphabet _ (by omega); exact hexChar_mem_alphabet _ (by omega)]

/-- C7 witness: the quantified parts at concrete inputs. -/
theorem C7_html_color_witness :
    ((rgb_to_html_color 255 0 0).length = 7 ∧
      (rgb_to_html_color 255 0 0).head? = some '#' ∧
      (∀ c ∈ (rgb_to_html_color 255 0 0).tail, c ∈ ("0123456789abcdef").toList) ∧
      unhex (hexChar (255 / 16)) * 16 + unhex (hexChar (255 % 16)) = 255) ∧
      renderCell (255, 0, 0) 128 ((" .:*#").toList) false true =
        ("<span style=\"color:").toList ++ rgb_to_html_color 255 0 0 ++
          ("\">").toList ++
          [(" .:*#").toList.getD (glyphIndexF 128 (" .:*#").toList.length).toNat ' '] ++
          ("</span>").toList :=
  ⟨C7_html_color.1 255 0 0 (by decide) (by decide) (by decide),
    C7_html_color.2.2 (255, 0, 0) 128 ((" .:*#").toList) false⟩

end Uniconv

namespace Uniconv

/-- Whatever the name, `resolveRamp` returns one of the four table ramps. -/
theorem resolveRamp_cases (name : String) :
    resolveRamp name = (" .:-=+*#%@").toList ∨ resolveRamp name = (" .:*#").toList ∨
      resolveRamp name = (" ░▒▓█").toList ∨
      resolveRamp name =
        (" .\x27`^\",:;Il!i><~+_-?][\x7d\x7b1)(|/tfjrxnuvczXYUJCLQ0OZmwqpdbkhao*#MW&8%B@$").toList := by
  simp only [resolveRamp, dictGet, CHARSETS, List.find?]
  cases h1 : (("standard" : String) == name) <;> simp only [h1]
  · cases h2 : (("simple" : String) == name) <;> simp only [h2]
    · cases h3 : (("blocks" : String) == name) <;> simp only [h3]
      · cases h4 : (("detailed" : String) == name) <;> simp only [h4]
        · left; rfl
        · right; right; right; rfl
      · right; right; left; rfl
    · right; left; rfl
  · left; rfl

/-- The escape character appears in none of the ramps, inverted or not. -/
theorem ramp_esc_free (name : String) (invert : Bool) :
    '\x1b' ∉ (if invert then (resolveRamp name).reverse else resolveRamp name) := by
  rcases resolveRamp_cases name with h | h | h | h <;> rw [h] <;> cases invert <;> decide

/-- Membership in a separator-join comes from the separator or a piece. -/
theorem mem_joinSep (sep : List Char) (ls : List (List Char)) (c : Char)
    (h : c ∈ joinSep sep ls) : c ∈ sep ∨ ∃ l ∈ ls, c ∈ l := by
  induction ls with
  | nil => simp [joinSep] at h
  | cons a ls ih =>
    cases ls with
    | nil =>
      right
      exact ⟨a, by simp, by simpa [joinSep] using h⟩
    | cons b ls2 =>
      rw [show joinSep sep (a :: b :: ls2) = a ++ sep ++ joinSep sep (b :: ls2) from rfl] at h
      simp only [List.mem_append] at h
      rcases h with (h | h) | h
      · right; exact ⟨a, by simp, h⟩
      · left; exact h
      · rcases ih h with h' | ⟨l, hl, hc⟩
        · left; exact h'
        · right; exact ⟨l, by simp [hl], hc⟩

/-- A `getD` lookup is a member or the default. -/
theorem getD_mem_or_default {α : Type} [Inhabited α] (l : List α) (n : ℕ) (d : α) :
    l.getD n d ∈ l ∨ l.getD n d = d := by
  rcases Nat.lt_or_ge n l.length with h | h
  · left
    rw [List.getD_eq_getElem l d h]
    exact List.getElem_mem h
  · right
    exact List.getD_eq_default l d h

/-- Hex digits are never the escape character (checked exhaustively). -/
theorem hexChar_ne_esc : ∀ n : ℕ, n < 16 → hexChar n ≠ '\x1b' := by decide

/-- In html mode a rendered cell never contains the terminal escape
character, provided the pixel channels are bytes and the ramp is
escape-free. -/
theorem renderCell_html_esc_free (p : ℕ × ℕ × ℕ) (gray : ℕ) (chars : List Char)
    (cb : Bool) (hr : p.1 < 256) (hg : p.2.1 < 256) (hb : p.2.2 < 256)
    (hch : '\x1b' ∉ chars) : '\x1b' ∉ renderCell p gray chars cb true := by
  intro hmem
  have hglyph := getD_mem_or_default chars (glyphIndexF gray chars.length).toNat ' '
  simp only [renderCell, if_true, rgb_to_html_color, hex2, List.append_assoc,
    List.cons_append, List.nil_append, List.mem_append, List.mem_cons,
    List.not_mem_nil, or_false, or_assoc] at hmem
  rcases hmem with h | h | h | h | h | h | h | h | h | h | h
  · exact absurd h (by decide)
  · exact absurd h (by decide)
  · exact hexChar_ne_esc _ (by omega) h.symm
  · exact hexChar_ne_esc _ (by omega) h.symm
  · exact hexChar_ne_esc _ (by omega) h.symm
  · exact hexChar_ne_esc _ (by omega) h.symm
  · exact hexChar_ne_esc _ (by omega) h.symm
  · exact hexChar_ne_esc _ (by omega) h.symm
  · exact absurd h (by decide)
  · rcases hglyph with hm | hd
    · rw [← h] at hm
      exact hch hm
    · rw [hd] at h
      exact absurd h (by decide)
  · exact absurd h (by decide)

end Uniconv

namespace Uniconv

/-- In html mode the whole rendered output never contains the terminal
escape character. -/
theorem renderLines_html_esc_free (pixels : List (ℕ × ℕ × ℕ)) (grays : List ℕ)
    (width height : ℕ) (chars : List Char) (cb : Bool)
    (hpix : ∀ q ∈ pixels, q.1 < 256 ∧ q.2.1 < 256 ∧ q.2.2 < 256)
    (hch : '\x1b' ∉ chars) :
    '\x1b' ∉ renderLines pixels grays width height chars cb true := by
  intro hmem
  unfold renderLines at hmem
  rcases mem_joinSep _ _ _ hmem with hsep | ⟨l, hl, hc⟩
  · exact absurd hsep (by decide)
  · simp only [if_true, List.mem_append, List.mem_map, List.mem_range,
      List.mem_singleton] at hl
    rcases hl with (hl | ⟨y, hy, rfl⟩) | hl
    · fin_cases hl <;> exact absurd hc (by decide)
    · unfold renderRow at hc
      simp only [List.mem_flatten, List.mem_map, List.mem_range] at hc
      obtain ⟨lc, ⟨x, hx, rfl⟩, hcc⟩ := hc
      have hp : (pixels.getD (y * width + x) (0, 0, 0)).1 < 256 ∧
          (pixels.getD (y * width + x) (0, 0, 0)).2.1 < 256 ∧
          (pixels.getD (y * width + x) (0, 0, 0)).2.2 < 256 := by
        rcases getD_mem_or_default pixels (y * width + x) (0, 0, 0) with hm | hd
        · exact hpix _ hm
        · rw [hd]
          exact ⟨by norm_num, by norm_num, by norm_num⟩
      exact renderCell_html_esc_free _ _ chars cb hp.1 hp.2.1 hp.2.2 hch hcc
    · rw [hl] at hc
      exact absurd hc (by decide)

/-- When html is set the color flag is ignored: the html branch of each
cell is taken before the ANSI branch. -/
theorem image_to_ascii_html_ignores_color (img : SourceImage) (width : ℤ)
    (charset : String) (invert : Bool) :
    image_to_ascii img width charset invert true true =
      image_to_ascii img width charset invert false true := rfl

/-- C10: with both `--html` and `--color` set, html wins for every cell:
the image-level output equals the html-only output, an html render never
contains the terminal escape character (given byte pixel channels and an
escape-free ramp), and every ramp the resolver can produce is
escape-free. -/
theorem C10_html_precedence :
    (∀ (img : SourceImage) (width : ℤ) (charset : String) (invert : Bool),
      image_to_ascii img width charset invert true true =
        image_to_ascii img width charset invert false true) ∧
      (∀ (pixels : List (ℕ × ℕ × ℕ)) (grays : List ℕ) (width height : ℕ)
        (chars : List Char) (cb : Bool),
        (∀ q ∈ pixels, q.1 < 256 ∧ q.2.1 < 256 ∧ q.2.2 < 256) → '\x1b' ∉ chars →
          '\x1b' ∉ renderLines pixels grays width height chars cb true) ∧
      (∀ (name : String) (invert : Bool),
        '\x1b' ∉ (if invert then (resolveRamp name).reverse else resolveRamp name)) :=
  ⟨fun img width charset invert =>
    image_to_ascii_html_ignores_color img width charset invert,
    renderLines_html_esc_free, ramp_esc_free⟩

/-- C10 witness: concrete instances of all three parts. -/
theorem C10_html_precedence_witness :
    image_to_ascii testImage 2 ("simple") false true true =
        image_to_ascii testImage 2 ("simple") false false true ∧
      '\x1b' ∉ renderLines [(0, 0, 0), (255, 255, 255)] [0, 255] 2 1
        ((" .:*#").toList) true true ∧
      '\x1b' ∉ (if true then (resolveRamp ("simple")).reverse
        else resolveRamp ("simple")) :=
  ⟨C10_html_precedence.1 testImage 2 ("simple") false,
    C10_html_precedence.2.1 [(0, 0, 0), (255, 255, 255)] [0, 255] 2 1
      ((" .:*#").toList) true (by decide) (by decide),
    C10_html_precedence.2.2 ("simple") true⟩

end Uniconv

namespace Uniconv

/-- Hex digits are never `<` nor `s` (checked exhaustively); hence cell
color strings can neither start a `<span` occurrence nor complete one. -/
theorem hexChar_ne_lt_s : ∀ n : ℕ, n < 16 → hexChar n ≠ '<' ∧ hexChar n ≠ 's' := by
  decide

/-- C8: every html render over a 2×1 grid (any ramp, any byte pixels,
color flag irrelevant) starts with `<!DOCTYPE html>`, ends with
`</html>`, and contains exactly 2 occurrences of `<span`. -/
theorem C8_html_shell (r0 g0 b0 gy0 r1 g1 b1 gy1 : ℕ) (chars : List Char) (cb : Bool)
    (hr0 : r0 < 256) (hg0 : g0 < 256) (hb0 : b0 < 256)
    (hr1 : r1 < 256) (hg1 : g1 < 256) (hb1 : b1 < 256) :
    (renderLines [(r0, g0, b0), (r1, g1, b1)] [gy0, gy1] 2 1 chars cb true).take 15 =
        ("<!DOCTYPE html>").toList ∧
      (renderLines [(r0, g0, b0), (r1, g1, b1)] [gy0, gy1] 2 1 chars cb true).drop
          ((renderLines [(r0, g0, b0), (r1, g1, b1)] [gy0, gy1] 2 1
            chars cb true).length - 7) =
        ("</html>").toList ∧
      cnt (renderLines [(r0, g0, b0), (r1, g1, b1)] [gy0, gy1] 2 1 chars cb true) = 2 := by
  refine ⟨?_, ?_, ?_⟩
  · simp [renderLines, renderRow, renderCell, rgb_to_html_color, hex2, htmlHeader,
      htmlFooter, joinSep, List.range_succ]
  · simp [renderLines, renderRow, renderCell, rgb_to_html_color, hex2, htmlHeader,
      htmlFooter, joinSep, List.range_succ]
  · have f1 := hexChar_ne_lt_s (r0 / 16) (by omega)
    have f2 := hexChar_ne_lt_s (r0 % 16) (by omega)
    have f3 := hexChar_ne_lt_s (g0 / 16) (by omega)
    have f4 := hexChar_ne_lt_s (g0 % 16) (by omega)
    have f5 := hexChar_ne_lt_s (b0 / 16) (by omega)
    have f6 := hexChar_ne_lt_s (b0 % 16) (by omega)
    have f7 := hexChar_ne_lt_s (r1 / 16) (by omega)
    have f8 := hexChar_ne_lt_s (r1 % 16) (by omega)
    have f9 := hexChar_ne_lt_s (g1 / 16) (by omega)
    have f10 := hexChar_ne_lt_s (g1 % 16) (by omega)
    have f11 := hexChar_ne_lt_s (b1 / 16) (by omega)
    have f12 := hexChar_ne_lt_s (b1 % 16) (by omega)
    simp only [renderLines, renderRow, renderCell, rgb_to_html_color, hex2, htmlHeader,
      htmlFooter, joinSep, List.range_succ, List.range_zero, List.map_append,
      List.map_cons, List.map_nil, List.flatten, List.cons_append, List.nil_append,
      List.append_nil, List.getD_cons_zero, List.getD_cons_succ, if_true, Nat.zero_mul,
      Nat.add_zero, Nat.zero_add]
    simp [cnt, f1.1, f1.2, f2.1, f2.2, f3.1, f3.2, f4.1, f4.2, f5.1, f5.2, f6.1, f6.2,
      f7.1, f7.2, f8.1, f8.2, f9.1, f9.2, f10.1, f10.2, f11.1, f11.2, f12.1, f12.2]

/-- C8 witness: the shell properties at a concrete 2×1 render. -/
theorem C8_html_shell_witness :
    (renderLines [(0, 0, 0), (255, 128, 7)] [0, 200] 2 1
        ((" .:*#").toList) false true).take 15 = ("<!DOCTYPE html>").toList ∧
      (renderLines [(0, 0, 0), (255, 128, 7)] [0, 200] 2 1
          ((" .:*#").toList) false true).drop
          ((renderLines [(0, 0, 0), (255, 128, 7)] [0, 200] 2 1
            ((" .:*#").toList) false true).length - 7) = ("</html>").toList ∧
      cnt (renderLines [(0, 0, 0), (255, 128, 7)] [0, 200] 2 1
        ((" .:*#").toList) false true) = 2 :=
  C8_html_shell 0 0 0 0 255 128 7 200 ((" .:*#").toList) false (by decide) (by decide)
    (by decide) (by decide) (by decide) (by decide)

end Uniconv
